import Mathlib

/-!
Verification of the VUNIT regression scripts (`check_vunit_regress.py`,
`runall.py`) against their specification.

The Python code is shallowly embedded: the file system is a pair of pure
functions (path existence and file read), `str` operations are reimplemented
with Python semantics (`split`, `strip`, `readlines`, `os.path.join`,
`rsplit`), and the aggregation loop of `check_vunit_regress.main` is a fold
over the test-list lines returning `Except`: an `.error` value models an
uncaught Python exception (`IndexError`) aborting the run, carrying the
state (counters and log chunks written so far) at the moment of the crash.
-/

namespace Vunit

/-- Python `str.isspace` on the ASCII whitespace characters relevant to
`str.split()` / `str.strip()`. -/
def isPySpace (c : Char) : Bool :=
  c = ' ' || c = '\t' || c = '\n' || c = '\r' || c = '\x0b' || c = '\x0c'

/-- Helper for `pySplit`: walk the characters, accumulating the current
token (reversed); whitespace closes the token if one is open. -/
def pySplitAux : List Char → List Char → List String
  | [], [] => []
  | [], acc => [String.mk acc.reverse]
  | c :: rest, acc =>
    if isPySpace c then
      match acc with
      | [] => pySplitAux rest []
      | _ => String.mk acc.reverse :: pySplitAux rest []
    else pySplitAux rest (c :: acc)

/-- Python `s.split()` with no arguments: split on runs of whitespace,
dropping empty tokens. -/
def pySplit (s : String) : List String :=
  pySplitAux s.data []

/-- Python `s.strip()` with no arguments: drop leading and trailing
whitespace. -/
def pyStrip (s : String) : String :=
  String.mk (((s.data.dropWhile isPySpace).reverse.dropWhile isPySpace).reverse)

/-- Helper for `pyReadLines`: accumulate characters, emitting a line after
each newline character (lines keep their trailing newline). -/
def readLinesAux : List Char → List Char → List String
  | [], [] => []
  | [], acc => [String.mk acc.reverse]
  | '\n' :: rest, acc => String.mk (('\n' :: acc).reverse) :: readLinesAux rest []
  | c :: rest, acc => readLinesAux rest (c :: acc)

/-- Python `fh.readlines()` on a text file with the given content: split
after each newline, keeping the newline; the result never contains the
empty string. -/
def pyReadLines (s : String) : List String :=
  readLinesAux s.data []

/-- Two-argument `os.path.join` (POSIX semantics): if `b` is absolute it
replaces the path; otherwise append, inserting `/` unless the path so far
is empty or already ends in `/`. -/
def pjoin (a b : String) : String :=
  if b.data.head? = some '/' then b
  else if a = "" ∨ a.data.getLast? = some '/' then a ++ b
  else a ++ "/" ++ b

/-- Does `pat` occur (contiguously) in the character list? -/
def subOccurs (pat : List Char) : List Char → Bool
  | [] => pat.isEmpty
  | c :: rest => pat.isPrefixOf (c :: rest) || subOccurs pat rest

/-- Python `pat in txt` substring containment. -/
def pyContains (txt pat : String) : Bool :=
  subOccurs pat.data txt.data

/-- Python `s.rsplit("/", 1)[0]`: everything before the last `/`, or `s`
itself when `s` contains no `/`. -/
def pyRsplit1Head (s : String) : String :=
  let r := s.data.reverse
  if r.contains '/' then
    String.mk (((r.dropWhile (fun c => ¬ c = '/')).drop 1).reverse)
  else s

/-- The file tree the scripts run against: `pathExists` models
`os.path.exists`, `readFile` models opening a file for read plus reading
its full text (`none` models the `open`/`read` raising an exception). -/
structure FS where
  pathExists : String → Bool
  readFile : String → Option String

/-- Constant `MapFile` of `check_vunit_regress.main`. -/
def MapFile : String := "test_name_to_path_mapping.txt"

/-- Constant `OutPath` of `check_vunit_regress.main`. -/
def OutPath : String := "test_output"

/-- Constant `OFile` of `check_vunit_regress.main`. -/
def OFile : String := "output.txt"

/-- Constant `PassMSG` of `check_vunit_regress.main`: the sole pass
marker. -/
def PassMSG : String := "=N:[VhdlStop]"

/-- The fixed separator line written after error / verbose blocks
(75 `*` characters plus newline). -/
def SEP : String :=
  "***************************************************************************\n"

/-- `out_dir = os.path.join(".", test, "vunit_out")`. -/
def outDirOf (test : String) : String :=
  pjoin (pjoin "." test) "vunit_out"

/-- `mfile = os.path.join(out_dir, OutPath, MapFile)`. -/
def mfileOf (od : String) : String :=
  pjoin (pjoin od OutPath) MapFile

/-- `dtn = os.path.join(out_dir, OutPath, sm[0], OFile)`. -/
def dtnOf (od s0 : String) : String :=
  pjoin (pjoin (pjoin od OutPath) s0) OFile

/-- The three `lh.write` chunks emitted when a test's output directory is
absent. -/
def dirErrChunks (od : String) : List String :=
  [">>>>  ERROR: Expected output directory was not found\n    " ++ od, "\n", SEP]

/-- The three `lh.write` chunks emitted when the mapping file exists but
cannot be opened. -/
def mapOpenErrChunks (mfile : String) : List String :=
  [">>>>  ERROR: Expected output file was not found\n    " ++ mfile, "\n", SEP]

/-- The three `lh.write` chunks emitted when a sub-test result file cannot
be opened. -/
def resErrChunks (dtn : String) : List String :=
  [">>>>  ERROR: Expected test results file was not found\n    " ++ dtn, "\n", SEP]

/-- The `lh.write` chunks emitted for a failing sub-test: the
`Test Failed` line always, plus the full output text and separator when
verbose. -/
def failChunks (verbose : Bool) (m txt : String) : List String :=
  (">>>>  Test Failed: " ++ m ++ "\n") ::
    (if verbose then [txt, "\n", SEP] else [])

/-- The mutable state of the aggregation loop: the three counters and the
sequence of chunks written to `vunit_check.log` so far. -/
structure AggState where
  passed : Nat
  failures : Nat
  missing : Nat
  log : List String
deriving Repr, DecidableEq

/-- The state at the top of the loop: all counters zero, empty log. -/
def initState : AggState := ⟨0, 0, 0, []⟩

/-- One iteration of the inner loop over mapping-file lines, one line `m`.
`sm[0]` is evaluated before the `try`: a token-less line is an uncaught
`IndexError`, modelled as `.error` carrying the current state. -/
def processMapLine (fs : FS) (verbose : Bool) (od : String) (st : AggState)
    (m : String) : Except AggState AggState :=
  match pySplit m with
  | [] => .error st
  | s0 :: _ =>
    let dtn := dtnOf od s0
    match fs.readFile dtn with
    | some txt =>
      if ¬ pyContains txt PassMSG then
        .ok { st with failures := st.failures + 1,
                      log := st.log ++ failChunks verbose m txt }
      else
        .ok { st with passed := st.passed + 1 }
    | none =>
      .ok { st with log := st.log ++ resErrChunks dtn }

/-- The inner loop over all mapping-file lines. -/
def processMapLines (fs : FS) (verbose : Bool) (od : String) :
    AggState → List String → Except AggState AggState
  | st, [] => .ok st
  | st, m :: ms =>
    match processMapLine fs verbose od st m with
    | .error e => .error e
    | .ok st2 => processMapLines fs verbose od st2 ms

/-- One iteration of the outer loop, one raw test-list line.  The comment
check `test[0] == "#"` precedes the strip; `line[0]` on an empty string is
an `IndexError` (never reached for `readlines` output, whose lines are
non-empty). -/
def processTest (fs : FS) (verbose : Bool) (st : AggState) (line : String) :
    Except AggState AggState :=
  match line.data with
  | [] => .error st
  | c :: _ =>
    if c = '#' then .ok st
    else
      let test := pyStrip line
      let od := outDirOf test
      if ¬ fs.pathExists od then
        .ok { st with missing := st.missing + 1,
                      log := st.log ++ dirErrChunks od }
      else
        let mfile := mfileOf od
        if ¬ fs.pathExists mfile then
          .ok st
        else
          match fs.readFile mfile with
          | none => .ok { st with log := st.log ++ mapOpenErrChunks mfile }
          | some content => processMapLines fs verbose od st (pyReadLines content)

/-- The outer loop over all test-list lines. -/
def runTests (fs : FS) (verbose : Bool) :
    AggState → List String → Except AggState AggState
  | st, [] => .ok st
  | st, t :: ts =>
    match processTest fs verbose st t with
    | .error e => .error e
    | .ok st2 => runTests fs verbose st2 ts

/-- The whole aggregation pass of `check_vunit_regress.main` after the
test list has been read: run the loop from the zero state, then write the
trailing `None` line when `failures + missing <= 0`. -/
def aggregate (fs : FS) (verbose : Bool) (rlst : List String) :
    Except AggState AggState :=
  (runTests fs verbose initState rlst).map fun st =>
    if st.failures + st.missing = 0 then { st with log := st.log ++ ["None\n"] }
    else st

/-- The value `main` returns (and `do_exit` passes to the OS) on a normal
run: `failures + missing`. -/
def aggExit (fs : FS) (verbose : Bool) (rlst : List String) :
    Except AggState Nat :=
  (runTests fs verbose initState rlst).map fun st => st.failures + st.missing

/-- A test-list line whose first character is `#` (the only lines the loop
skips). -/
def isCommentLine (l : String) : Bool :=
  l.data.head? == some '#'

/-- Characterization (read off the code branches) of a mapping-file line
that contributes nothing to `failures`: its result file is unreadable, or
readable and containing the pass marker. -/
def mapLineClean (fs : FS) (od : String) (m : String) : Bool :=
  match pySplit m with
  | [] => true
  | s0 :: _ =>
    match fs.readFile (dtnOf od s0) with
    | none => true
    | some txt => pyContains txt PassMSG

/-- Characterization of a test-list line that contributes nothing to
`failures + missing`: a comment, or a test whose output directory exists
and all of whose readable sub-test result files carry the marker (absent
mapping file or unreadable mapping/result files contribute nothing). -/
def lineClean (fs : FS) (line : String) : Bool :=
  match line.data with
  | [] => true
  | c :: _ =>
    if c = '#' then true
    else
      let od := outDirOf (pyStrip line)
      if ¬ fs.pathExists od then false
      else if ¬ fs.pathExists (mfileOf od) then true
      else
        match fs.readFile (mfileOf od) with
        | none => true
        | some content => (pyReadLines content).all (mapLineClean fs od)

/-- A whole run is clean when every test-list line is clean. -/
def cleanRun (fs : FS) (rlst : List String) : Bool :=
  rlst.all (lineClean fs)

/-- A mapping-file line whose result file can be opened. -/
def lineOpened (fs : FS) (od m : String) : Bool :=
  match pySplit m with
  | [] => false
  | s0 :: _ => (fs.readFile (dtnOf od s0)).isSome

/-- A mapping-file line whose result file can be opened and contains the
pass marker. -/
def linePassed (fs : FS) (od m : String) : Bool :=
  match pySplit m with
  | [] => false
  | s0 :: _ =>
    match fs.readFile (dtnOf od s0) with
    | none => false
    | some txt => pyContains txt PassMSG

/-- A mapping-file line whose result file can be opened and lacks the pass
marker. -/
def lineFailed (fs : FS) (od m : String) : Bool :=
  match pySplit m with
  | [] => false
  | s0 :: _ =>
    match fs.readFile (dtnOf od s0) with
    | none => false
    | some txt => ¬ pyContains txt PassMSG

/-- Counters of a state, for comparing runs. -/
def countsOf (st : AggState) : Nat × Nat × Nat :=
  (st.passed, st.failures, st.missing)

/-- Counters plus normal/abort flag of a run result. -/
def countsE : Except AggState AggState → Bool × Nat × Nat × Nat
  | .ok st => (true, countsOf st)
  | .error st => (false, countsOf st)

/-- Log chunks of a run result (also at an abort: what was written before
the crash). -/
def logOf : Except AggState AggState → List String
  | .ok st => st.log
  | .error st => st.log

/-- The exit status of a run result: `failures + missing` on a normal run,
none if the run aborted on an exception. -/
def exitOfRun : Except AggState AggState → Option Nat
  | .ok st => some (st.failures + st.missing)
  | .error _ => none

/-!  Model of the `main` entry sequence of `check_vunit_regress.py`
(log-file opening, test-list check), for the pre-flight claims. -/

/-- The environment `main` starts in: the file tree, whether
`vunit_check.log` can be opened for writing, the content of
`tests_to_run.txt` (none if absent), and the previous content of
`vunit_check.log` (none if absent). -/
structure Env where
  fs : FS
  logOpenOk : Bool
  testList : Option String
  prevLog : Option String

/-- Outcome of `main` (plus the surrounding `do_exit`): the exit code and
the final on-disk content of `vunit_check.log`. -/
inductive MainResult where
  | preflight (exitCode : Int) (logFile : Option String)
  | crash (logFile : Option String)
  | done (st : AggState) (exitCode : Int) (logFile : Option String)

/-- `main`: open `vunit_check.log` for writing (mode `"w"` truncates an
existing file at open time); only then test `exists("tests_to_run.txt")`
and exit `-1` if it is absent — the freshly truncated, never-written log
is left behind.  Otherwise run the aggregation loop. -/
def mainRun (env : Env) (verbose : Bool) : MainResult :=
  if ¬ env.logOpenOk then .preflight (-1) env.prevLog
  else
    match env.testList with
    | none => .preflight (-1) (some "")
    | some tl =>
      match aggregate env.fs verbose (pyReadLines tl) with
      | .error st => .crash (some (String.join st.log))
      | .ok st => .done st (Int.ofNat (st.failures + st.missing)) (some (String.join st.log))

/-!  Model of `runall.py setup`. -/

/-- `shutil.rmtree`: the path and everything below it stops existing. -/
def removeTree (fs : FS) (p : String) : FS :=
  { pathExists := fun q =>
      if q = p ∨ (p ++ "/").data.isPrefixOf q.data then false else fs.pathExists q,
    readFile := fun q =>
      if q = p ∨ (p ++ "/").data.isPrefixOf q.data then none else fs.readFile q }

/-- The cleaning loop of `runall.setup` over the test-list lines: skip
comments (`name[0] == "#"`, an `IndexError` on an empty string), build
`vupath = name.strip() + "/vunit_out"` and `rmtree` it if it exists. -/
def setupClean (fs : FS) : List String → Except Unit FS
  | [] => .ok fs
  | name :: rest =>
    match name.data with
    | [] => .error ()
    | c :: _ =>
      if c = '#' then setupClean fs rest
      else
        let vupath := pyStrip name ++ "/vunit_out"
        if fs.pathExists vupath then setupClean (removeTree fs vupath) rest
        else setupClean fs rest

/-- The discovery loop of `runall.setup`: for each glob hit `s` write
`s.rsplit("/", 1)[0]` plus newline and set `found`; returns the written
lines and the final `found` flag. -/
def discoveryLoop : List String → List String × Bool
  | [] => ([], false)
  | s :: rest =>
    let r := discoveryLoop rest
    ((pyRsplit1Head s ++ "\n") :: r.1, true)

/-- What the discovery branch of `runall.setup` produces when
`tests_to_run.txt` does not exist: the name of the file the discovered
list is written to, its lines, the console diagnostics, and the exit
status (`do_exit(1)` when nothing was found). -/
structure EnumOutcome where
  fileName : String
  lines : List String
  diagnostics : List String
  exitStatus : Option Int
deriving Repr, DecidableEq

/-- The discovery branch of `runall.setup`, as a function of the list of
glob hits for `**/run.py` (in discovery order). -/
def setupDiscovery (sflist : List String) : EnumOutcome :=
  let r := discoveryLoop sflist
  { fileName := "tests_to_run.txt",
    lines := r.1,
    diagnostics :=
      if r.2 then []
      else
        ["No tests list file was found under 'tests_to_run.txt'\n\n",
         "All tests found are listed in file 'test_found_list.txt'\n\n"],
    exitStatus := if r.2 then none else some 1 }

/-!  Concrete file trees and environments used as witnesses and
counterexamples. -/

/-- A file tree where nothing exists and nothing can be read. -/
def fsNone : FS where
  pathExists := fun _ => false
  readFile := fun _ => none

/-- Scenario D: one test `t`; its mapping file lists sub-tests `a`
(result file readable, marker present) and `b` (result file absent). -/
def fsD : FS where
  pathExists := fun p =>
    p == "./t/vunit_out" ||
    p == "./t/vunit_out/test_output/test_name_to_path_mapping.txt"
  readFile := fun p =>
    if p == "./t/vunit_out/test_output/test_name_to_path_mapping.txt" then
      some "a sub1\nb sub2\n"
    else if p == "./t/vunit_out/test_output/a/output.txt" then
      some "run ok\n=N:[VhdlStop]\n"
    else none

/-- A file tree where test `t` has its output directory but no mapping
file. -/
def fs1 : FS where
  pathExists := fun p => p == "./t/vunit_out"
  readFile := fun _ => none

/-- A file tree where test `t` has a mapping file whose single line is
blank (`"\n"`). -/
def fs8 : FS where
  pathExists := fun p =>
    p == "./t/vunit_out" ||
    p == "./t/vunit_out/test_output/test_name_to_path_mapping.txt"
  readFile := fun p =>
    if p == "./t/vunit_out/test_output/test_name_to_path_mapping.txt" then
      some "\n"
    else none

/-- A file tree with one passing test `t` (sub-test `a`, marker present),
entirely clean. -/
def fsOK : FS where
  pathExists := fun p =>
    p == "./t/vunit_out" ||
    p == "./t/vunit_out/test_output/test_name_to_path_mapping.txt"
  readFile := fun p =>
    if p == "./t/vunit_out/test_output/test_name_to_path_mapping.txt" then
      some "a sub1\n"
    else if p == "./t/vunit_out/test_output/a/output.txt" then
      some "ok =N:[VhdlStop]\n"
    else none

/-- A file tree where every path exists (and reads fail). -/
def fsAll : FS where
  pathExists := fun _ => true
  readFile := fun _ => none

/-- An environment with an openable log, no `tests_to_run.txt`, and a
previous log with content. -/
def envW : Env :=
  { fs := fsNone, logOpenOk := true, testList := none,
    prevLog := some "old log content\n" }

/-- Relation between the states of a non-verbose and a verbose run: equal
counters, and the non-verbose log is a sublist of the verbose one. -/
def VRel (stF stT : AggState) : Prop :=
  stF.passed = stT.passed ∧ stF.failures = stT.failures ∧
  stF.missing = stT.missing ∧ List.Sublist stF.log stT.log

/-- `VRel` lifted to run results: both normal or both aborted, with
related states. -/
def VRelE : Except AggState AggState → Except AggState AggState → Prop
  | .ok a, .ok b => VRel a b
  | .error a, .error b => VRel a b
  | _, _ => False

end Vunit
namespace Vunit

theorem processTest_comment (fs : FS) (v : Bool) (st : AggState) (l : String)
    (h : isCommentLine l = true) : processTest fs v st l = .ok st := by
  unfold isCommentLine at h
  unfold processTest
  cases hl : l.data with
  | nil => rw [hl] at h; simp at h
  | cons c cs =>
    rw [hl] at h
    simp at h
    simp [h]

theorem runTests_filter_comments (fs : FS) (v : Bool) (rlst : List String) :
    ∀ st, runTests fs v st (rlst.filter (fun l => !(isCommentLine l))) =
      runTests fs v st rlst := by
  induction rlst with
  | nil => intro st; rfl
  | cons l ls ih =>
    intro st
    by_cases h : isCommentLine l = true
    · rw [List.filter_cons, if_neg (by simp [h])]
      conv_rhs => rw [runTests]
      rw [processTest_comment fs v st l h]
      exact ih st
    · rw [List.filter_cons, if_pos (by simp [Bool.eq_false_iff.mpr h] )]
      rw [runTests, runTests]
      cases processTest fs v st l with
      | error e => rfl
      | ok st2 => exact ih st2

theorem C5_missing_dir (fs : FS) (v : Bool) (st : AggState) (line : String)
    (hne : line.data ≠ []) (hnc : line.data.head? ≠ some '#')
    (habs : fs.pathExists (outDirOf (pyStrip line)) = false) :
    processTest fs v st line =
      .ok { st with
              missing := st.missing + 1,
              log := st.log ++ dirErrChunks (outDirOf (pyStrip line)) } := by
  unfold processTest
  cases hl : line.data with
  | nil => exact absurd hl hne
  | cons c cs =>
    rw [hl] at hnc
    simp at hnc
    simp [hnc, habs]

theorem C10_log_truncated (env : Env) (v : Bool) (h1 : env.logOpenOk = true)
    (h2 : env.testList = none) :
    mainRun env v = .preflight (-1) (some "") := by
  unfold mainRun
  rw [h2]
  simp [h1]

theorem discoveryLoop_spec : ∀ l : List String,
    (discoveryLoop l).1 = l.map (fun s => pyRsplit1Head s ++ "\n") ∧
    ((discoveryLoop l).2 = false ↔ l = []) := by
  intro l
  induction l with
  | nil => exact ⟨rfl, by simp [discoveryLoop]⟩
  | cons s rest ih => simp [discoveryLoop, ih.1]

theorem removeTree_mono (fs : FS) (p q : String)
    (h : (removeTree fs p).pathExists q = true) : fs.pathExists q = true := by
  unfold removeTree at h
  dsimp at h
  split at h
  · exact absurd h (by simp)
  · exact h

theorem removeTree_gone (fs : FS) (p : String) :
    (removeTree fs p).pathExists p = false := by
  unfold removeTree
  dsimp
  rw [if_pos]
  simp

theorem setupClean_mono : ∀ (l : List String) (fs fs2 : FS),
    setupClean fs l = .ok fs2 → ∀ q, fs2.pathExists q = true → fs.pathExists q = true := by
  intro l
  induction l with
  | nil =>
    intro fs fs2 h q hq
    unfold setupClean at h
    cases h
    exact hq
  | cons name rest ih =>
    intro fs fs2 h q hq
    unfold setupClean at h
    cases hd : name.data with
    | nil => rw [hd] at h; cases h
    | cons c cs =>
      rw [hd] at h
      dsimp at h
      by_cases hc : c = '#'
      · rw [if_pos hc] at h
        exact ih fs fs2 h q hq
      · rw [if_neg hc] at h
        by_cases he : fs.pathExists (pyStrip name ++ "/vunit_out") = true
        · rw [if_pos he] at h
          exact removeTree_mono fs _ q (ih _ fs2 h q hq)
        · rw [if_neg he] at h
          exact ih fs fs2 h q hq

end Vunit
namespace Vunit

/-- C4 counterexample: a blank test-list line is processed, not skipped. -/
theorem C4_counterexample :
    pyStrip "\n" = "" ∧
    aggregate fsNone false ["\n"] = .ok ⟨0, 0, 1, dirErrChunks "./vunit_out"⟩ := by
  exact ⟨rfl, rfl⟩

/-- C4 amended. -/
theorem C4_comments_skipped (fs : FS) (v : Bool) (rlst : List String) :
    aggregate fs v (rlst.filter (fun l => !(isCommentLine l))) = aggregate fs v rlst := by
  unfold aggregate
  rw [runTests_filter_comments]

/-- C5 witness. -/
theorem C5_witness :
    processTest fsNone false initState "demo_test\n" =
      .ok ⟨0, 0, 1, dirErrChunks "./demo_test/vunit_out"⟩ ∧
    aggregate fsNone false ["demo_test\n"] =
      .ok ⟨0, 0, 1, dirErrChunks "./demo_test/vunit_out"⟩ ∧
    aggExit fsNone false ["demo_test\n"] = .ok 1 := by
  refine ⟨?_, rfl, rfl⟩
  rw [C5_missing_dir fsNone false initState "demo_test\n" (by decide) (by decide) rfl]
  rfl

/-- C10 witness. -/
theorem C10_witness :
    mainRun envW false = .preflight (-1) (some "") ∧
    envW.prevLog = some "old log content\n" :=
  ⟨C10_log_truncated envW false rfl rfl, rfl⟩

/-- C7 counterexample. -/
theorem C7_counterexample :
    (setupDiscovery ["a/run.py"]).fileName = "tests_to_run.txt" ∧
    (setupDiscovery ["a/run.py"]).fileName ≠ "test_found_list.txt" ∧
    (setupDiscovery ["a/run.py"]).lines = ["a\n"] := by
  refine ⟨rfl, by decide, rfl⟩

/-- C7 amended. -/
theorem C7_discovery_amended (sflist : List String) :
    (setupDiscovery sflist).fileName = "tests_to_run.txt" ∧
    (setupDiscovery sflist).lines = sflist.map (fun s => pyRsplit1Head s ++ "\n") ∧
    ((setupDiscovery sflist).exitStatus = some 1 ↔ sflist = []) ∧
    (sflist = [] →
      "All tests found are listed in file 'test_found_list.txt'\n\n" ∈
        (setupDiscovery sflist).diagnostics) := by
  obtain ⟨h1, h2⟩ := discoveryLoop_spec sflist
  refine ⟨rfl, h1, ?_, ?_⟩
  · unfold setupDiscovery
    dsimp
    cases hb : (discoveryLoop sflist).2 with
    | false => simp [h2.mp hb]
    | true =>
      simp only [if_pos rfl]
      constructor
      · intro h; cases h
      · intro h; rw [h] at hb; simp [discoveryLoop] at hb
  · intro h
    subst h
    simp [setupDiscovery, discoveryLoop]

/-- C7 witness. -/
theorem C7_witness :
    ((setupDiscovery ([] : List String)).exitStatus = some 1 ↔ ([] : List String) = []) ∧
    "All tests found are listed in file 'test_found_list.txt'\n\n" ∈
      (setupDiscovery ([] : List String)).diagnostics :=
  ⟨(C7_discovery_amended []).2.2.1, (C7_discovery_amended []).2.2.2 rfl⟩

/-- C9. -/
theorem C9_previous_results_removed (fs : FS) (rlst : List String) (fs2 : FS)
    (name : String) (h : setupClean fs rlst = .ok fs2) (hmem : name ∈ rlst)
    (hnc : isCommentLine name = false) :
    fs2.pathExists (pyStrip name ++ "/vunit_out") = false := by
  induction rlst generalizing fs with
  | nil => cases hmem
  | cons hd tl ih =>
    unfold setupClean at h
    cases hd2 : hd.data with
    | nil => rw [hd2] at h; cases h
    | cons c cs =>
      rw [hd2] at h
      dsimp at h
      rcases List.mem_cons.mp hmem with heq | htl
      · subst heq
        unfold isCommentLine at hnc
        rw [hd2] at hnc
        simp at hnc
        rw [if_neg hnc] at h
        by_cases he : fs.pathExists (pyStrip name ++ "/vunit_out") = true
        · rw [if_pos he] at h
          cases hfinal : fs2.pathExists (pyStrip name ++ "/vunit_out") with
          | false => rfl
          | true =>
            have := setupClean_mono tl _ fs2 h _ hfinal
            rw [removeTree_gone] at this
            cases this
        · rw [if_neg he] at h
          cases hfinal : fs2.pathExists (pyStrip name ++ "/vunit_out") with
          | false => rfl
          | true =>
            exact absurd (setupClean_mono tl fs fs2 h _ hfinal) he
      · by_cases hc : c = '#'
        · rw [if_pos hc] at h
          exact ih fs h htl
        · rw [if_neg hc] at h
          by_cases he : fs.pathExists (pyStrip hd ++ "/vunit_out") = true
          · rw [if_pos he] at h
            exact ih _ h htl
          · rw [if_neg he] at h
            exact ih fs h htl

/-- C9 witness. -/
theorem C9_witness :
    setupClean fsAll ["t\n"] = .ok (removeTree fsAll "t/vunit_out") ∧
    (removeTree fsAll "t/vunit_out").pathExists "t/vunit_out" = false := by
  constructor
  · rfl
  · exact C9_previous_results_removed fsAll ["t\n"] (removeTree fsAll "t/vunit_out")
      "t\n" rfl (List.mem_cons_self _ _) (by decide)

end Vunit
namespace Vunit

/-- C3. -/
theorem C3_scenario_d (fs : FS) (v : Bool) (line mA mB s0a s0b : String)
    (ra rb : List String) (content txt : String)
    (hne : line.data ≠ []) (hnc : line.data.head? ≠ some '#')
    (hod : fs.pathExists (outDirOf (pyStrip line)) = true)
    (hmf : fs.pathExists (mfileOf (outDirOf (pyStrip line))) = true)
    (hcontent : fs.readFile (mfileOf (outDirOf (pyStrip line))) = some content)
    (hlines : pyReadLines content = [mA, mB])
    (hsA : pySplit mA = s0a :: ra)
    (hrA : fs.readFile (dtnOf (outDirOf (pyStrip line)) s0a) = some txt)
    (hpA : pyContains txt PassMSG = true)
    (hsB : pySplit mB = s0b :: rb)
    (hrB : fs.readFile (dtnOf (outDirOf (pyStrip line)) s0b) = none) :
    aggregate fs v [line] =
      .ok ⟨1, 0, 0, resErrChunks (dtnOf (outDirOf (pyStrip line)) s0b) ++ ["None\n"]⟩ ∧
    aggExit fs v [line] = .ok 0 := by
  have hpt : processTest fs v initState line =
      .ok ⟨1, 0, 0, resErrChunks (dtnOf (outDirOf (pyStrip line)) s0b)⟩ := by
    unfold processTest
    cases hl : line.data with
    | nil => exact absurd hl hne
    | cons c cs =>
      rw [hl] at hnc
      have hc : ¬ c = '#' := by simpa using hnc
      simp only [hc, if_false, ite_false, hod, hmf, hcontent, hlines]
      simp only [Bool.not_eq_true, not_false_iff, if_neg, not_true]
      simp [hc, processMapLines, processMapLine, hsA, hrA, hpA, hsB, hrB, initState]
  have hrt : runTests fs v initState [line] =
      .ok ⟨1, 0, 0, resErrChunks (dtnOf (outDirOf (pyStrip line)) s0b)⟩ := by
    unfold runTests
    rw [hpt]
    rfl
  constructor
  · unfold aggregate
    rw [hrt]
    rfl
  · unfold aggExit
    rw [hrt]
    rfl

/-- C3 witness. -/
theorem C3_witness :
    aggregate fsD false ["t\n"] =
      .ok ⟨1, 0, 0,
        resErrChunks "./t/vunit_out/test_output/b/output.txt" ++ ["None\n"]⟩ ∧
    aggExit fsD false ["t\n"] = .ok 0 :=
  C3_scenario_d fsD false "t\n" "a sub1\n" "b sub2\n" "a" "b" ["sub1"] ["sub2"]
    "a sub1\nb sub2\n" "run ok\n=N:[VhdlStop]\n"
    (by decide) (by decide) rfl rfl rfl rfl rfl rfl rfl rfl rfl

end Vunit
namespace Vunit

/-- C2. -/
theorem C2_map_counts (fs : FS) (v : Bool) (od : String) (ml : List String) :
    ∀ st : AggState, (∀ m ∈ ml, pySplit m ≠ []) →
    ∃ st', processMapLines fs v od st ml = .ok st' ∧
      st'.passed = st.passed + (ml.filter (linePassed fs od)).length ∧
      st'.failures = st.failures + (ml.filter (lineFailed fs od)).length ∧
      st'.missing = st.missing ∧
      st'.passed + st'.failures =
        st.passed + st.failures + (ml.filter (lineOpened fs od)).length := by
  induction ml with
  | nil =>
    intro st _
    exact ⟨st, rfl, by simp, by simp, rfl, by simp⟩
  | cons m ms ih =>
    intro st h
    have hm : pySplit m ≠ [] := h m (List.mem_cons_self m ms)
    have htail : ∀ x ∈ ms, pySplit x ≠ [] :=
      fun x hx => h x (List.mem_cons_of_mem m hx)
    cases hs : pySplit m with
    | nil => exact absurd hs hm
    | cons s0 r =>
      cases hr : fs.readFile (dtnOf od s0) with
      | none =>
        obtain ⟨st', h1, h2, h3, h4, h5⟩ :=
          ih { st with log := st.log ++ resErrChunks (dtnOf od s0) } htail
        refine ⟨st', ?_, ?_, ?_, ?_, ?_⟩
        · have hstep : processMapLine fs v od st m =
              .ok { st with log := st.log ++ resErrChunks (dtnOf od s0) } := by
            simp [processMapLine, hs, hr]
          simp only [processMapLines, hstep]
          exact h1
        · rw [h2]; simp [List.filter_cons, linePassed, hs, hr]
        · rw [h3]; simp [List.filter_cons, lineFailed, hs, hr]
        · exact h4
        · rw [h5]; simp [List.filter_cons, lineOpened, hs, hr]
      | some txt =>
        by_cases hp : pyContains txt PassMSG = true
        · obtain ⟨st', h1, h2, h3, h4, h5⟩ :=
            ih { st with passed := st.passed + 1 } htail
          refine ⟨st', ?_, ?_, ?_, ?_, ?_⟩
          · have hstep : processMapLine fs v od st m =
                .ok { st with passed := st.passed + 1 } := by
              simp [processMapLine, hs, hr, hp]
            simp only [processMapLines, hstep]
            exact h1
          · rw [h2]; simp [List.filter_cons, linePassed, hs, hr, hp]; omega
          · rw [h3]; simp [List.filter_cons, lineFailed, hs, hr, hp]
          · exact h4
          · rw [h5]; simp [List.filter_cons, lineOpened, hs, hr]; omega
        · have hp2 : pyContains txt PassMSG = false := by
            cases hpc : pyContains txt PassMSG
            · rfl
            · exact absurd hpc hp
          obtain ⟨st', h1, h2, h3, h4, h5⟩ :=
            ih { st with failures := st.failures + 1,
                         log := st.log ++ failChunks v m txt } htail
          refine ⟨st', ?_, ?_, ?_, ?_, ?_⟩
          · have hstep : processMapLine fs v od st m =
                .ok { st with failures := st.failures + 1,
                              log := st.log ++ failChunks v m txt } := by
              simp [processMapLine, hs, hr, hp2]
            simp only [processMapLines, hstep]
            exact h1
          · rw [h2]; simp [List.filter_cons, linePassed, hs, hr, hp2]
          · rw [h3]; simp [List.filter_cons, lineFailed, hs, hr, hp2]; omega
          · exact h4
          · rw [h5]; simp [List.filter_cons, lineOpened, hs, hr]; omega

/-- C2 witness. -/
theorem C2_witness :
    processMapLines fsD false "./t/vunit_out" initState ["a sub1\n", "b sub2\n"] =
      .ok ⟨1, 0, 0, resErrChunks "./t/vunit_out/test_output/b/output.txt"⟩ ∧
    (1 : Nat) + 0 = 0 + 0 +
      ((["a sub1\n", "b sub2\n"].filter (lineOpened fsD "./t/vunit_out")).length) := by
  obtain ⟨st', h1, h2, h3, h4, h5⟩ :=
    C2_map_counts fsD false "./t/vunit_out" ["a sub1\n", "b sub2\n"] initState (by decide)
  have heval : processMapLines fsD false "./t/vunit_out" initState ["a sub1\n", "b sub2\n"] =
      .ok ⟨1, 0, 0, resErrChunks "./t/vunit_out/test_output/b/output.txt"⟩ := rfl
  have hst : st' = ⟨1, 0, 0, resErrChunks "./t/vunit_out/test_output/b/output.txt"⟩ := by
    rw [heval] at h1
    injection h1 with h
    exact h.symm
  constructor
  · exact heval
  · rw [hst] at h5
    simpa using h5

end Vunit
namespace Vunit

theorem processMapLines_stats (fs : FS) (v : Bool) (od : String) :
    ∀ (ml : List String) (st st' : AggState),
    processMapLines fs v od st ml = .ok st' →
    st.failures ≤ st'.failures ∧ st'.missing = st.missing ∧
    (st'.failures = st.failures ↔ ∀ m ∈ ml, mapLineClean fs od m = true) := by
  intro ml
  induction ml with
  | nil =>
    intro st st' h
    simp only [processMapLines] at h
    injection h with h2
    subst h2
    exact ⟨le_refl _, rfl, by simp⟩
  | cons m ms ih =>
    intro st st' h
    simp only [processMapLines] at h
    cases hstep : processMapLine fs v od st m with
    | error e =>
      simp only [hstep] at h
      cases h
    | ok st2 =>
      simp only [hstep] at h
      obtain ⟨f2, m2, iff2⟩ := ih st2 st' h
      cases hs : pySplit m with
      | nil => simp [processMapLine, hs] at hstep
      | cons s0 r =>
        cases hr : fs.readFile (dtnOf od s0) with
        | none =>
          have hst2 : st2 = { st with log := st.log ++ resErrChunks (dtnOf od s0) } := by
            simp [processMapLine, hs, hr] at hstep
            exact hstep.symm
          subst hst2
          have hclean : mapLineClean fs od m = true := by
            simp [mapLineClean, hs, hr]
          simp only [List.forall_mem_cons, hclean, true_and]
          exact ⟨f2, m2, iff2⟩
        | some txt =>
          by_cases hp : pyContains txt PassMSG = true
          · have hst2 : st2 = { st with passed := st.passed + 1 } := by
              simp [processMapLine, hs, hr, hp] at hstep
              exact hstep.symm
            subst hst2
            have hclean : mapLineClean fs od m = true := by
              simp [mapLineClean, hs, hr, hp]
            simp only [List.forall_mem_cons, hclean, true_and]
            exact ⟨f2, m2, iff2⟩
          · have hp2 : pyContains txt PassMSG = false := by
              cases hpc : pyContains txt PassMSG
              · rfl
              · exact absurd hpc hp
            have hst2 : st2 = { st with failures := st.failures + 1,
                                        log := st.log ++ failChunks v m txt } := by
              simp [processMapLine, hs, hr, hp2] at hstep
              exact hstep.symm
            subst hst2
            have hclean : mapLineClean fs od m = false := by
              simp [mapLineClean, hs, hr, hp2]
            simp only [List.forall_mem_cons, hclean]
            have f2' : st.failures + 1 ≤ st'.failures := by simpa using f2
            refine ⟨?_, m2, ?_⟩
            · omega
            · constructor
              · intro hf
                exfalso
                omega
              · rintro ⟨hfalse, -⟩
                exact absurd hfalse (by simp)

end Vunit
namespace Vunit

theorem processTest_stats (fs : FS) (v : Bool) (st st' : AggState) (line : String)
    (h : processTest fs v st line = .ok st') :
    st.failures ≤ st'.failures ∧ st.missing ≤ st'.missing ∧
    ((st'.failures = st.failures ∧ st'.missing = st.missing) ↔
      lineClean fs line = true) := by
  unfold processTest at h
  unfold lineClean
  cases hl : line.data with
  | nil =>
    rw [hl] at h
    cases h
  | cons c cs =>
    rw [hl] at h
    dsimp only at h
    by_cases hc : c = '#'
    · rw [if_pos hc] at h
      injection h with h2
      subst h2
      simp [hc]
    · rw [if_neg hc] at h
      by_cases hod : fs.pathExists (outDirOf (pyStrip line)) = true
      · rw [if_neg (by simp [hod])] at h
        by_cases hmf : fs.pathExists (mfileOf (outDirOf (pyStrip line))) = true
        · rw [if_neg (by simp [hmf])] at h
          cases hreadf : fs.readFile (mfileOf (outDirOf (pyStrip line))) with
          | none =>
            simp only [hreadf] at h
            injection h with h2
            subst h2
            simp [hc, hod, hmf, hreadf]
          | some content =>
            simp only [hreadf] at h
            obtain ⟨f1, m1, iff1⟩ :=
              processMapLines_stats fs v (outDirOf (pyStrip line))
                (pyReadLines content) st st' h
            refine ⟨f1, le_of_eq m1.symm, ?_⟩
            simp only [hc, if_neg, hod, hmf, hreadf, not_true,
              Bool.not_eq_true, if_false, ite_false, ite_true,
              List.all_eq_true]
            constructor
            · rintro ⟨hf, -⟩
              exact iff1.mp hf
            · intro hall
              exact ⟨iff1.mpr hall, m1⟩
        · rw [if_pos (by simp [Bool.not_eq_true] at hmf; simp [hmf])] at h
          injection h with h2
          subst h2
          simp [hc, hod, hmf]
      · rw [if_pos (by simp [Bool.not_eq_true] at hod; simp [hod])] at h
        injection h with h2
        subst h2
        simp [hc, hod]

end Vunit
namespace Vunit

theorem runTests_stats (fs : FS) (v : Bool) :
    ∀ (rlst : List String) (st st' : AggState),
    runTests fs v st rlst = .ok st' →
    st.failures ≤ st'.failures ∧ st.missing ≤ st'.missing ∧
    ((st'.failures = st.failures ∧ st'.missing = st.missing) ↔
      ∀ l ∈ rlst, lineClean fs l = true) := by
  intro rlst
  induction rlst with
  | nil =>
    intro st st' h
    simp only [runTests] at h
    injection h with h2
    subst h2
    exact ⟨le_refl _, le_refl _, by simp⟩
  | cons t ts ih =>
    intro st st' h
    simp only [runTests] at h
    cases hstep : processTest fs v st t with
    | error e =>
      simp only [hstep] at h
      cases h
    | ok st2 =>
      simp only [hstep] at h
      obtain ⟨f1, m1, iff1⟩ := processTest_stats fs v st st2 t hstep
      obtain ⟨f2, m2, iff2⟩ := ih st2 st' h
      refine ⟨le_trans f1 f2, le_trans m1 m2, ?_⟩
      rw [List.forall_mem_cons]
      constructor
      · rintro ⟨hf, hm⟩
        have e1 : st2.failures = st.failures ∧ st2.missing = st.missing := by omega
        have e2 : st'.failures = st2.failures ∧ st'.missing = st2.missing := by omega
        exact ⟨iff1.mp e1, iff2.mp e2⟩
      · rintro ⟨hct, hcts⟩
        obtain ⟨g1, g2⟩ := iff1.mpr hct
        obtain ⟨g3, g4⟩ := iff2.mpr hcts
        omega

theorem aggregate_ok (fs : FS) (v : Bool) (rlst : List String) (st : AggState)
    (h : aggregate fs v rlst = .ok st) :
    ∃ st0, runTests fs v initState rlst = .ok st0 ∧
      st.failures = st0.failures ∧ st.missing = st0.missing := by
  unfold aggregate at h
  cases hrt : runTests fs v initState rlst with
  | error e =>
    rw [hrt] at h
    cases h
  | ok st0 =>
    rw [hrt] at h
    simp only [Except.map] at h
    injection h with h2
    refine ⟨st0, rfl, ?_, ?_⟩
    · rw [← h2]
      by_cases hz : st0.failures + st0.missing = 0
      · simp [hz]
      · simp [hz]
    · rw [← h2]
      by_cases hz : st0.failures + st0.missing = 0
      · simp [hz]
      · simp [hz]

/-- C1 amended. -/
theorem C1_exit_amended (fs : FS) (v : Bool) (rlst : List String) (st : AggState)
    (h : aggregate fs v rlst = .ok st) :
    aggExit fs v rlst = .ok (st.failures + st.missing) ∧
    (aggExit fs v rlst = .ok 0 ↔ cleanRun fs rlst = true) := by
  obtain ⟨st0, hrt, hf, hm⟩ := aggregate_ok fs v rlst st h
  obtain ⟨f1, m1, hiff⟩ := runTests_stats fs v rlst initState st0 hrt
  have hexit : aggExit fs v rlst = .ok (st0.failures + st0.missing) := by
    unfold aggExit
    rw [hrt]
    rfl
  constructor
  · rw [hexit, hf, hm]
  · rw [hexit]
    unfold cleanRun
    rw [List.all_eq_true]
    constructor
    · intro hok
      injection hok with h0
      have hi : st0.failures = initState.failures ∧ st0.missing = initState.missing := by
        simp only [initState]
        omega
      exact hiff.mp hi
    · intro hclean
      obtain ⟨g1, g2⟩ := hiff.mpr hclean
      simp only [initState] at g1 g2
      rw [g1, g2]

/-- C1 counterexample: a test whose output directory exists but whose
mapping file is absent yields exit code 0. -/
theorem C1_counterexample :
    aggExit fs1 false ["t\n"] = .ok 0 ∧
    fs1.pathExists "./t/vunit_out" = true ∧
    fs1.pathExists (mfileOf "./t/vunit_out") = false :=
  ⟨rfl, rfl, rfl⟩

/-- C1 witness. -/
theorem C1_witness :
    aggExit fsOK false ["t\n"] = .ok (0 + 0) ∧
    (aggExit fsOK false ["t\n"] = .ok 0 ↔ cleanRun fsOK ["t\n"] = true) :=
  C1_exit_amended fsOK false ["t\n"] ⟨1, 0, 0, ["None\n"]⟩ rfl

end Vunit
namespace Vunit

theorem vrel_mapLine (fs : FS) (od m : String) (stF stT : AggState)
    (h : VRel stF stT) :
    VRelE (processMapLine fs false od stF m) (processMapLine fs true od stT m) := by
  obtain ⟨hp, hf, hm, hl⟩ := h
  cases hs : pySplit m with
  | nil =>
    have hF : processMapLine fs false od stF m = .error stF := by
      simp [processMapLine, hs]
    have hT : processMapLine fs true od stT m = .error stT := by
      simp [processMapLine, hs]
    rw [hF, hT]
    exact ⟨hp, hf, hm, hl⟩
  | cons s0 r =>
    cases hr : fs.readFile (dtnOf od s0) with
    | none =>
      have hF : processMapLine fs false od stF m =
          .ok { stF with log := stF.log ++ resErrChunks (dtnOf od s0) } := by
        simp [processMapLine, hs, hr]
      have hT : processMapLine fs true od stT m =
          .ok { stT with log := stT.log ++ resErrChunks (dtnOf od s0) } := by
        simp [processMapLine, hs, hr]
      rw [hF, hT]
      exact ⟨hp, hf, hm, hl.append (List.Sublist.refl _)⟩
    | some txt =>
      by_cases hpc : pyContains txt PassMSG = true
      · have hF : processMapLine fs false od stF m =
            .ok { stF with passed := stF.passed + 1 } := by
          simp [processMapLine, hs, hr, hpc]
        have hT : processMapLine fs true od stT m =
            .ok { stT with passed := stT.passed + 1 } := by
          simp [processMapLine, hs, hr, hpc]
        rw [hF, hT]
        exact ⟨by rw [hp], hf, hm, hl⟩
      · have hpc2 : pyContains txt PassMSG = false := by
          cases hx : pyContains txt PassMSG
          · rfl
          · exact absurd hx hpc
        have hF : processMapLine fs false od stF m =
            .ok { stF with failures := stF.failures + 1,
                           log := stF.log ++ failChunks false m txt } := by
          simp [processMapLine, hs, hr, hpc2]
        have hT : processMapLine fs true od stT m =
            .ok { stT with failures := stT.failures + 1,
                           log := stT.log ++ failChunks true m txt } := by
          simp [processMapLine, hs, hr, hpc2]
        rw [hF, hT]
        refine ⟨hp, by rw [hf], hm, ?_⟩
        have hfc : failChunks true m txt =
            failChunks false m txt ++ [txt, "\n", SEP] := by
          simp [failChunks]
        rw [hfc, ← List.append_assoc]
        exact (hl.append (List.Sublist.refl _)).trans
          (List.sublist_append_left _ _)

theorem vrel_mapLines (fs : FS) (od : String) :
    ∀ (ml : List String) (stF stT : AggState), VRel stF stT →
    VRelE (processMapLines fs false od stF ml) (processMapLines fs true od stT ml) := by
  intro ml
  induction ml with
  | nil => intro stF stT h; exact h
  | cons m ms ih =>
    intro stF stT h
    have hstep := vrel_mapLine fs od m stF stT h
    simp only [processMapLines]
    cases hF : processMapLine fs false od stF m with
    | error eF =>
      cases hT : processMapLine fs true od stT m with
      | error eT => rw [hF, hT] at hstep; exact hstep
      | ok aT => rw [hF, hT] at hstep; exact hstep.elim
    | ok aF =>
      cases hT : processMapLine fs true od stT m with
      | error eT => rw [hF, hT] at hstep; exact hstep.elim
      | ok aT =>
        rw [hF, hT] at hstep
        exact ih aF aT hstep

theorem vrel_processTest (fs : FS) (line : String) (stF stT : AggState)
    (h : VRel stF stT) :
    VRelE (processTest fs false stF line) (processTest fs true stT line) := by
  obtain ⟨hp, hf, hm, hl⟩ := h
  cases hd : line.data with
  | nil =>
    have hF : processTest fs false stF line = .error stF := by
      simp [processTest, hd]
    have hT : processTest fs true stT line = .error stT := by
      simp [processTest, hd]
    rw [hF, hT]
    exact ⟨hp, hf, hm, hl⟩
  | cons c cs =>
    by_cases hc : c = '#'
    · have hF : processTest fs false stF line = .ok stF := by
        simp [processTest, hd, hc]
      have hT : processTest fs true stT line = .ok stT := by
        simp [processTest, hd, hc]
      rw [hF, hT]
      exact ⟨hp, hf, hm, hl⟩
    · by_cases hod : fs.pathExists (outDirOf (pyStrip line)) = true
      · by_cases hmfe : fs.pathExists (mfileOf (outDirOf (pyStrip line))) = true
        · cases hrd : fs.readFile (mfileOf (outDirOf (pyStrip line))) with
          | none =>
            have hF : processTest fs false stF line =
                .ok { stF with log := stF.log ++
                  mapOpenErrChunks (mfileOf (outDirOf (pyStrip line))) } := by
              simp [processTest, hd, hc, hod, hmfe, hrd]
            have hT : processTest fs true stT line =
                .ok { stT with log := stT.log ++
                  mapOpenErrChunks (mfileOf (outDirOf (pyStrip line))) } := by
              simp [processTest, hd, hc, hod, hmfe, hrd]
            rw [hF, hT]
            exact ⟨hp, hf, hm, hl.append (List.Sublist.refl _)⟩
          | some content =>
            have hF : processTest fs false stF line =
                processMapLines fs false (outDirOf (pyStrip line)) stF
                  (pyReadLines content) := by
              simp [processTest, hd, hc, hod, hmfe, hrd]
            have hT : processTest fs true stT line =
                processMapLines fs true (outDirOf (pyStrip line)) stT
                  (pyReadLines content) := by
              simp [processTest, hd, hc, hod, hmfe, hrd]
            rw [hF, hT]
            exact vrel_mapLines fs (outDirOf (pyStrip line)) (pyReadLines content)
              stF stT ⟨hp, hf, hm, hl⟩
        · have hmf2 : fs.pathExists (mfileOf (outDirOf (pyStrip line))) = false := by
            cases hx : fs.pathExists (mfileOf (outDirOf (pyStrip line)))
            · rfl
            · exact absurd hx hmfe
          have hF : processTest fs false stF line = .ok stF := by
            simp [processTest, hd, hc, hod, hmf2]
          have hT : processTest fs true stT line = .ok stT := by
            simp [processTest, hd, hc, hod, hmf2]
          rw [hF, hT]
          exact ⟨hp, hf, hm, hl⟩
      · have hod2 : fs.pathExists (outDirOf (pyStrip line)) = false := by
          cases hx : fs.pathExists (outDirOf (pyStrip line))
          · rfl
          · exact absurd hx hod
        have hF : processTest fs false stF line =
            .ok { stF with
                    missing := stF.missing + 1,
                    log := stF.log ++ dirErrChunks (outDirOf (pyStrip line)) } := by
          simp [processTest, hd, hc, hod2]
        have hT : processTest fs true stT line =
            .ok { stT with
                    missing := stT.missing + 1,
                    log := stT.log ++ dirErrChunks (outDirOf (pyStrip line)) } := by
          simp [processTest, hd, hc, hod2]
        rw [hF, hT]
        exact ⟨hp, hf, by rw [hm], hl.append (List.Sublist.refl _)⟩

theorem vrel_runTests (fs : FS) :
    ∀ (rlst : List String) (stF stT : AggState), VRel stF stT →
    VRelE (runTests fs false stF rlst) (runTests fs true stT rlst) := by
  intro rlst
  induction rlst with
  | nil => intro stF stT h; exact h
  | cons t ts ih =>
    intro stF stT h
    have hstep := vrel_processTest fs t stF stT h
    simp only [runTests]
    cases hF : processTest fs false stF t with
    | error eF =>
      cases hT : processTest fs true stT t with
      | error eT => rw [hF, hT] at hstep; exact hstep
      | ok aT => rw [hF, hT] at hstep; exact hstep.elim
    | ok aF =>
      cases hT : processTest fs true stT t with
      | error eT => rw [hF, hT] at hstep; exact hstep.elim
      | ok aT =>
        rw [hF, hT] at hstep
        exact ih aF aT hstep

/-- C6. -/
theorem C6_verbose_independent (fs : FS) (rlst : List String) :
    countsE (aggregate fs true rlst) = countsE (aggregate fs false rlst) ∧
    exitOfRun (aggregate fs true rlst) = exitOfRun (aggregate fs false rlst) ∧
    List.Sublist (logOf (aggregate fs false rlst)) (logOf (aggregate fs true rlst)) := by
  have h := vrel_runTests fs rlst initState initState
    ⟨rfl, rfl, rfl, List.Sublist.refl _⟩
  unfold aggregate
  cases hF : runTests fs false initState rlst with
  | error eF =>
    cases hT : runTests fs true initState rlst with
    | error eT =>
      rw [hF, hT] at h
      obtain ⟨hp, hf, hm, hl⟩ := h
      simp only [Except.map]
      exact ⟨by simp [countsE, countsOf, hp, hf, hm], rfl, hl⟩
    | ok aT => rw [hF, hT] at h; exact h.elim
  | ok aF =>
    cases hT : runTests fs true initState rlst with
    | error eT => rw [hF, hT] at h; exact h.elim
    | ok aT =>
      rw [hF, hT] at h
      obtain ⟨hp, hf, hm, hl⟩ := h
      simp only [Except.map]
      by_cases hz : aT.failures + aT.missing = 0
      · have hzF : aF.failures + aF.missing = 0 := by omega
        rw [if_pos hz, if_pos hzF]
        refine ⟨?_, ?_, ?_⟩
        · simp [countsE, countsOf, hp, hf, hm]
        · simp [exitOfRun, hf, hm]
        · exact hl.append (List.Sublist.refl _)
      · have hzF : ¬ aF.failures + aF.missing = 0 := by omega
        rw [if_neg hz, if_neg hzF]
        refine ⟨?_, ?_, ?_⟩
        · simp [countsE, countsOf, hp, hf, hm]
        · simp [exitOfRun, hf, hm]
        · exact hl

end Vunit
namespace Vunit

theorem mapLines_blank_aborts (fs : FS) (v : Bool) (od : String) :
    ∀ (ml : List String) (m : String), m ∈ ml → pySplit m = [] →
    ∀ st, ∃ e, processMapLines fs v od st ml = .error e := by
  intro ml
  induction ml with
  | nil => intro m hm; cases hm
  | cons m0 ms ih =>
    intro m hm hblank st
    rcases List.mem_cons.mp hm with heq | htl
    · subst heq
      exact ⟨st, by simp [processMapLines, processMapLine, hblank]⟩
    · cases hstep : processMapLine fs v od st m0 with
      | error e => exact ⟨e, by simp [processMapLines, hstep]⟩
      | ok st2 =>
        obtain ⟨e, he⟩ := ih m htl hblank st2
        exact ⟨e, by simp [processMapLines, hstep, he]⟩

theorem processTest_blank_aborts (fs : FS) (v : Bool) (line content m : String)
    (hne : line.data ≠ []) (hnc : line.data.head? ≠ some '#')
    (hod : fs.pathExists (outDirOf (pyStrip line)) = true)
    (hmf : fs.pathExists (mfileOf (outDirOf (pyStrip line))) = true)
    (hrd : fs.readFile (mfileOf (outDirOf (pyStrip line))) = some content)
    (hm : m ∈ pyReadLines content) (hblank : pySplit m = []) :
    ∀ st, ∃ e, processTest fs v st line = .error e := by
  intro st
  obtain ⟨e, he⟩ := mapLines_blank_aborts fs v (outDirOf (pyStrip line))
    (pyReadLines content) m hm hblank st
  refine ⟨e, ?_⟩
  cases hl : line.data with
  | nil => exact absurd hl hne
  | cons c cs =>
    rw [hl] at hnc
    have hc : ¬ c = '#' := by simpa using hnc
    simp [processTest, hl, hc, hod, hmf, hrd, he]

theorem runTests_blank_aborts (fs : FS) (v : Bool) :
    ∀ (rlst : List String) (line : String), line ∈ rlst →
    (∀ st, ∃ e, processTest fs v st line = .error e) →
    ∀ st, ∃ e, runTests fs v st rlst = .error e := by
  intro rlst
  induction rlst with
  | nil => intro line hm; cases hm
  | cons t ts ih =>
    intro line hm habort st
    rcases List.mem_cons.mp hm with heq | htl
    · subst heq
      obtain ⟨e, he⟩ := habort st
      exact ⟨e, by simp [runTests, he]⟩
    · cases hstep : processTest fs v st t with
      | error e => exact ⟨e, by simp [runTests, hstep]⟩
      | ok st2 =>
        obtain ⟨e, he⟩ := ih line htl habort st2
        exact ⟨e, by simp [runTests, hstep, he]⟩

/-- C8. -/
theorem C8_blank_mapline_aborts (fs : FS) (v : Bool) (rlst : List String)
    (line content m : String)
    (hmem : line ∈ rlst)
    (hne : line.data ≠ []) (hnc : line.data.head? ≠ some '#')
    (hod : fs.pathExists (outDirOf (pyStrip line)) = true)
    (hmf : fs.pathExists (mfileOf (outDirOf (pyStrip line))) = true)
    (hrd : fs.readFile (mfileOf (outDirOf (pyStrip line))) = some content)
    (hm : m ∈ pyReadLines content) (hblank : pySplit m = []) :
    ∃ e, aggregate fs v rlst = .error e := by
  obtain ⟨e, he⟩ := runTests_blank_aborts fs v rlst line hmem
    (processTest_blank_aborts fs v line content m hne hnc hod hmf hrd hm hblank)
    initState
  exact ⟨e, by unfold aggregate; rw [he]; rfl⟩

/-- C8 witness. -/
theorem C8_witness :
    aggregate fs8 false ["t\n"] = .error ⟨0, 0, 0, []⟩ ∧
    fs8.readFile (mfileOf (outDirOf (pyStrip "t\n"))) = some "\n" ∧
    pySplit "\n" = [] := by
  obtain ⟨e, he⟩ := C8_blank_mapline_aborts fs8 false ["t\n"] "t\n" "\n" "\n"
    (List.mem_cons_self _ _) (by decide) (by decide) rfl rfl rfl (by decide) rfl
  have hcomp : aggregate fs8 false ["t\n"] = .error ⟨0, 0, 0, []⟩ := rfl
  rw [hcomp] at he
  exact ⟨hcomp, rfl, rfl⟩

end Vunit
